import Mathlib

/-!
Shallow embedding of the lock-free frame allocator in `src/tsl/frame_alloc.c`
(tsl-sdr).  The platform is fixed to the x86-64 configuration selected by the
preprocessor in that file: `counter_t` is `uint64_t`, `size_t` is 64 bits,
`SYS_CACHE_LINE_LENGTH` is 64 and `sizeof(struct frame_alloc_free)` is 64
(one pointer padded by `CAL_CACHE_ALIGNED`).  Machine words are modelled as
`Nat` with explicit `% 2^64` wherever the C arithmetic can wrap.

Memory that the allocator reinterprets (the `next` field living in the first
bytes of each free frame) is modelled as an association list from frame
addresses to stored pointer values; anonymous `mmap` memory is zero-filled,
so a never-written `next` field reads as `NULL` (`none`).

The single-threaded executions the claims quantify over make every
compare-and-swap succeed on its first attempt, so each `do/while` CAS retry
loop runs its body exactly once.
-/

namespace FrameAllocC

/-- Width of a machine word (`size_t`, `counter_t`, pointers) on the x86-64
target: values live in `[0, 2^64)`. -/
def wordMax : Nat := 2 ^ 64

/-- `SYS_CACHE_LINE_LENGTH` on the x86-64 target. -/
def SYS_CACHE_LINE_LENGTH : Nat := 64

/-- `sizeof(struct frame_alloc_free)`: the struct holds a single 8-byte
pointer but is declared `CAL_CACHE_ALIGNED`, so its size is one cache line. -/
def sizeof_frame_alloc_free : Nat := 64

/- A non-NULL pointer value is modelled as a `Nat` address; a possibly-NULL
pointer is an `Option Nat`, with `NULL` as `none`. -/

/-- The `next` fields stored in the first bytes of free frames: an
association list from frame address to the pointer value stored there.
Newest write shadows older ones. -/
abbrev Mem := List (Nat × Option Nat)

/-- Read the `next` field of the free-list node at address `p`
(`cur.free->next`).  The backing region comes from anonymous `mmap`, which
zero-fills, so an address never written reads as `NULL`. -/
def readNext (m : Mem) (p : Nat) : Option Nat :=
  match m.lookup p with
  | some v => v
  | none => none

/-- Write the `next` field of the free-list node at address `p`
(`itm->next = ...` / `phead->next = ...`). -/
def writeNext (m : Mem) (p : Nat) (v : Option Nat) : Mem :=
  (p, v) :: m

/-- `aresult_t` result codes used by `frame_alloc.c`.
Modelled from the spec: `tsl/errors.h` is not in the sources; per the spec's
error taxonomy there is a success code, an out-of-memory code, and a
distinguished outcome for fatal precondition (`TSL_ASSERT_ARG`) violations
on absent/invalid arguments. -/
inductive Aresult where
  | A_OK
  | A_E_NOMEM
  | A_E_BADARGS
  deriving Repr, DecidableEq

open Aresult

/-- `struct frame_alloc_head`: the double-word head record. -/
structure Head where
  free : Option Nat
  counter : Nat
  deriving Repr, DecidableEq

/-- `struct frame_alloc`: the allocator descriptor, together with the `next`
fields the allocator stores inside free frames (`mem`). -/
structure Alloc where
  hd : Head
  rgn : Nat
  rgn_len : Nat
  frame_size : Nat
  nr_frames : Nat
  frames_outstanding : Nat
  nr_frees : Nat
  nr_allocs : Nat
  mem : Mem
  deriving Repr, DecidableEq

/-- Result of `_frame_alloc_pop_free` / `frame_alloc`: the returned
`aresult_t`, the allocator state afterwards, and the final value of the
caller's `*top_free` / `*pframe` cell. -/
structure PopResult where
  ret : Aresult
  st : Alloc
  pframe : Option Nat
  deriving Repr, DecidableEq

/-- `_frame_alloc_pop_free(alloc, top_free)` in a single-threaded execution
(the CAS succeeds on the first try).  `top_free_in` is the value in the
caller's `*top_free` cell, left untouched on the empty-list path. -/
def frame_alloc_pop_free (a : Alloc) (top_free_in : Option Nat) : PopResult :=
  match a.hd.free with
  | none =>
      -- DIAG("no more space in allocator"); ret = A_E_NOMEM; goto done
      ⟨A_E_NOMEM, a, top_free_in⟩
  | some sn =>
      -- new.free = cur.free->next; new.counter = cur.counter + 1; CAS wins
      let a' : Alloc :=
        { a with
          hd := ⟨readNext a.mem sn, (a.hd.counter + 1) % wordMax⟩,
          nr_allocs := (a.nr_allocs + 1) % wordMax }
      ⟨A_OK, a', some sn⟩

/-- `_frame_alloc_push_free(alloc, new_top)` in a single-threaded execution:
splice `new_top`'s `next` to the observed head, bump the counter, CAS wins. -/
def frame_alloc_push_free (a : Alloc) (new_top : Nat) : Aresult × Alloc :=
  (A_OK,
    { a with
      hd := ⟨some new_top, (a.hd.counter + 1) % wordMax⟩,
      mem := writeNext a.mem new_top a.hd.free,
      nr_frees := (a.nr_frees + 1) % wordMax })

/-- Number of iterations of the `_frame_alloc_init` loop
`for (ptr; ptr < stop; ptr += fs)`: `⌈(stop - ptr) / fs⌉`.  Every caller
passes `fs = frame_size ≥ SYS_CACHE_LINE_LENGTH > 0` (with `fs = 0` the C
loop would not terminate; Lean's `/ 0 = 0` gives zero iterations). -/
def init_iters (fs stop ptr : Nat) : Nat :=
  (stop - ptr + fs - 1) / fs

/-- The body of the `_frame_alloc_init` loop, run a given number of times:
each iteration does `itm->next = alloc->hd.free; alloc->hd.free = itm;`
at `itm = ptr` and advances `ptr` by the frame size. -/
def init_go (fs : Nat) : Nat → Nat → Option Nat → Mem → Option Nat × Mem
  | 0, _, hdfree, m => (hdfree, m)
  | k + 1, ptr, hdfree, m =>
      init_go fs k (ptr + fs) (some ptr) (writeNext m ptr hdfree)

/-- The loop of `_frame_alloc_init`:
`for (ptr = rgn; ptr < rgn + rgn_len; ptr += frame_size)` prepending each
frame to the head chain, expressed by its exact iteration count so that it
computes by structural recursion. -/
def init_loop (fs stop : Nat) (ptr : Nat) (hdfree : Option Nat) (m : Mem) :
    Option Nat × Mem :=
  init_go fs (init_iters fs stop ptr) ptr hdfree m

/-- `_frame_alloc_init(alloc)`: thread every frame of the region onto the
free list (single-threaded, before the allocator is published). -/
def frame_alloc_init (a : Alloc) : Alloc :=
  let fm := init_loop a.frame_size (a.rgn + a.rgn_len) a.rgn a.hd.free a.mem
  { a with hd := { a.hd with free := fm.1 }, mem := fm.2 }

/-- `frame_bytes = (frame_bytes + SYS_CACHE_LINE_LENGTH - 1) &
(~(SYS_CACHE_LINE_LENGTH - 1))` in 64-bit `size_t` arithmetic: the addition
wraps modulo `2^64`; `~63` as a 64-bit word is `2^64 - 64`. -/
def round_frame_bytes (frame_bytes : Nat) : Nat :=
  ((frame_bytes + (SYS_CACHE_LINE_LENGTH - 1)) % wordMax) &&&
    (wordMax - SYS_CACHE_LINE_LENGTH)

/-- The per-frame size `frame_alloc_new` stores: the cache-line-rounded
request, raised to `sizeof(struct frame_alloc_free)` when smaller. -/
def computed_frame_size (frame_bytes : Nat) : Nat :=
  if round_frame_bytes frame_bytes < sizeof_frame_alloc_free then
    sizeof_frame_alloc_free
  else
    round_frame_bytes frame_bytes

/-- Outcome of `frame_alloc_new`: the returned `aresult_t`, the value left
in the caller's `*palloc`, whether the descriptor was acquired (`TZAALLOC`
succeeded), whether `TFREE(fa)` ran on that descriptor, whether `munmap`
ran on the mapping, and the length passed to `mmap` (if it was called). -/
structure NewResult where
  ret : Aresult
  palloc : Option Alloc
  descriptor_allocated : Bool
  descriptor_freed : Bool
  mapping_freed : Bool
  mmap_len : Option Nat
  deriving Repr, DecidableEq

/-- `frame_alloc_new(palloc, frame_bytes, nr_frames)`.  The environment's
nondeterminism is passed in: `tz_ok` is whether `TZAALLOC` obtains the
descriptor, and `mmap_result` is the address `mmap` returns (`none` for
`MAP_FAILED`).  Faithful to the source, including the mmap-failure path
that jumps to `done` without assigning `ret`. -/
def frame_alloc_new (frame_bytes0 nr_frames : Nat) (tz_ok : Bool)
    (mmap_result : Option Nat) : NewResult :=
  -- TSL_ASSERT_ARG(0 < frame_bytes); TSL_ASSERT_ARG(0 < nr_frames)
  if frame_bytes0 = 0 ∨ nr_frames = 0 then
    ⟨A_E_BADARGS, none, false, false, false, none⟩
  else
    let frame_bytes := computed_frame_size frame_bytes0
    -- *palloc = NULL happened before the minimum-size raise; both are folded
    -- into computed_frame_size, and *palloc is the `palloc` field below.
    if !tz_ok then
      -- FAILED(ret = TZAALLOC(fa, ...)): goto done with the error;
      -- TFREE(NULL) is a no-op and rgn == MAP_FAILED, so nothing is undone.
      ⟨A_E_NOMEM, none, false, false, false, none⟩
    else
      let rgn_size := (nr_frames * frame_bytes) % wordMax
      match mmap_result with
      | none =>
          -- mmap returned MAP_FAILED: PDIAG(...); goto done.  `ret` still
          -- holds A_OK, so the `if (FAILED(ret))` cleanup at done: is
          -- skipped: fa is not freed and A_OK is returned with *palloc NULL.
          ⟨A_OK, none, true, false, false, some rgn_size⟩
      | some rgn =>
          let fa0 : Alloc :=
            { hd := ⟨none, 0⟩
              rgn := rgn
              rgn_len := rgn_size
              frame_size := frame_bytes
              nr_frames := nr_frames
              frames_outstanding := 0
              nr_frees := 0
              nr_allocs := 0
              mem := [] }
          let fa := frame_alloc_init fa0
          ⟨A_OK, some fa, true, false, false, some rgn_size⟩

/-- `frame_alloc(alloc, pframe)`: sets `*pframe = NULL`, then pops. -/
def frame_alloc (a : Alloc) : PopResult :=
  frame_alloc_pop_free a none

/-- `frame_free(alloc, pframe)`: `pframe_in` is the caller's `*pframe`
value; a `NULL` value violates `TSL_ASSERT_ARG(NULL != *pframe)`.  On a
successful push the function clears `*pframe`. -/
def frame_free (a : Alloc) (pframe_in : Option Nat) : PopResult :=
  match pframe_in with
  | none => ⟨A_E_BADARGS, a, pframe_in⟩
  | some p =>
      let ra := frame_alloc_push_free a p
      if ra.1 = A_OK then ⟨ra.1, ra.2, none⟩ else ⟨ra.1, ra.2, some p⟩

/-- `frame_alloc_get_frame_size(alloc, pframe_bytes)`. -/
def frame_alloc_get_frame_size (a : Alloc) : Aresult × Nat :=
  (A_OK, a.frame_size)

/-- `frame_alloc_get_counts(alloc, nr_frees, nr_allocs)`. -/
def frame_alloc_get_counts (a : Alloc) : Aresult × Nat × Nat :=
  (A_OK, a.nr_frees, a.nr_allocs)

/-! ## Verification layer

`chain m f l` says the head pointer `f`, followed through the `next` fields
stored in `m`, walks exactly the addresses in `l` and then reaches `NULL`:
the free list is precisely `l`. -/

def chain (m : Mem) : Option Nat → List Nat → Bool
  | none, [] => true
  | none, _ :: _ => false
  | some _, [] => false
  | some p, q :: rest => p == q && chain m (readNext m p) rest

/-- The frame addresses `_frame_alloc_init` threads onto the free list after
`k` loop iterations starting at `ptr` with stride `fs`, listed from the
final head (the highest frame) down to `ptr`. -/
def frameList (fs : Nat) : Nat → Nat → List Nat
  | 0, _ => []
  | k + 1, ptr => frameList fs k (ptr + fs) ++ [ptr]

/-- `k` successive `frame_alloc` calls on one thread: the list of returned
`aresult_t` codes in call order, and the final allocator state. -/
def allocCalls (a : Alloc) : Nat → List Aresult × Alloc
  | 0 => ([], a)
  | k + 1 =>
      let r := frame_alloc a
      let rest := allocCalls r.st k
      (r.ret :: rest.1, rest.2)

theorem readNext_writeNext_self (m : Mem) (p : Nat) (v : Option Nat) :
    readNext (writeNext m p v) p = v := by
  simp [readNext, writeNext, List.lookup]

theorem readNext_writeNext_ne (m : Mem) (p q : Nat) (v : Option Nat)
    (h : q ≠ p) : readNext (writeNext m p v) q = readNext m q := by
  simp [readNext, writeNext, List.lookup, beq_false_of_ne h]

theorem chain_writeNext_irrel (m : Mem) (p : Nat) (v : Option Nat) :
    ∀ (l : List Nat) (f : Option Nat), (∀ q ∈ l, q ≠ p) →
      chain (writeNext m p v) f l = chain m f l := by
  intro l
  induction l with
  | nil => intro f _; cases f <;> rfl
  | cons q rest ih =>
      intro f hq
      cases f with
      | none => rfl
      | some r =>
          by_cases hrq : r = q
          · subst hrq
            have hr : r ≠ p := hq r (by simp)
            rw [chain, chain, readNext_writeNext_ne m p r v hr,
              ih (readNext m r) (fun x hx => hq x (by simp [hx]))]
          · rw [chain, chain]
            simp [beq_false_of_ne hrq]

/-- The init loop over a region of exactly `n` frames runs `n` times. -/
theorem init_iters_exact (fs n ptr : Nat) (hfs : 0 < fs) :
    init_iters fs (ptr + n * fs) ptr = n := by
  unfold init_iters
  have h1 : ptr + n * fs - ptr = n * fs := by omega
  rw [h1, Nat.mul_comm,
    show fs * n + fs - 1 = fs * n + (fs - 1) by omega,
    Nat.mul_add_div hfs, Nat.div_eq_of_lt (by omega), Nat.add_zero]

theorem chain_nil (m : Mem) (f : Option Nat) :
    chain m f [] = true ↔ f = none := by
  cases f <;> simp [chain]

theorem chain_cons (m : Mem) (f : Option Nat) (p : Nat) (rest : List Nat)
    (h : chain m f (p :: rest) = true) :
    f = some p ∧ chain m (readNext m p) rest = true := by
  cases f with
  | none => exact absurd h (by simp [chain])
  | some r =>
      rw [chain, Bool.and_eq_true, beq_iff_eq] at h
      exact ⟨by rw [h.1], by rw [← h.1]; exact h.2⟩

/-- After `n` iterations of the `_frame_alloc_init` loop the head chain
walks exactly the freshly threaded frames (highest first) followed by
whatever chain was there before. -/
theorem init_go_chain (fs : Nat) (hfs : 0 < fs) :
    ∀ (n : Nat) (ptr : Nat) (hdfree : Option Nat) (m : Mem) (l : List Nat),
      chain m hdfree l = true → (∀ q ∈ l, q < ptr) →
      chain (init_go fs n ptr hdfree m).2 (init_go fs n ptr hdfree m).1
        (frameList fs n ptr ++ l) = true := by
  intro n
  induction n with
  | zero =>
      intro ptr hdfree m l hch _
      simpa [init_go, frameList] using hch
  | succ k ih =>
      intro ptr hdfree m l hch hlt
      have hch' : chain (writeNext m ptr hdfree) (some ptr) (ptr :: l) = true := by
        rw [chain, readNext_writeNext_self,
          chain_writeNext_irrel m ptr hdfree l hdfree
            (fun q hq => Nat.ne_of_lt (hlt q hq)), hch]
        simp
      have hres := ih (ptr + fs) (some ptr) (writeNext m ptr hdfree) (ptr :: l)
        hch' (by
          intro q hq
          rcases List.mem_cons.1 hq with hq | hq
          · omega
          · have := hlt q hq; omega)
      rw [init_go]
      simpa [frameList, List.append_assoc] using hres

theorem frameList_length (fs : Nat) :
    ∀ (n : Nat) (ptr : Nat), (frameList fs n ptr).length = n := by
  intro n
  induction n with
  | zero => intro ptr; rfl
  | succ k ih => intro ptr; simp [frameList, ih]

/-- If the free list is exactly `l`, then `l.length + 1` successive
`frame_alloc` calls return `l.length` successes followed by one
`A_E_NOMEM`. -/
theorem allocCalls_chain :
    ∀ (l : List Nat) (a : Alloc), chain a.mem a.hd.free l = true →
      (allocCalls a (l.length + 1)).1 =
        List.replicate l.length A_OK ++ [A_E_NOMEM] := by
  intro l
  induction l with
  | nil =>
      intro a hch
      have hf : a.hd.free = none := (chain_nil _ _).1 hch
      simp [allocCalls, frame_alloc, frame_alloc_pop_free, hf]
  | cons p rest ih =>
      intro a hch
      obtain ⟨hf, hch'⟩ := chain_cons _ _ _ _ hch
      have hstep :
          (allocCalls a (rest.length + 1 + 1)).1 =
            A_OK :: (allocCalls
              ({ a with
                 hd := ⟨readNext a.mem p, (a.hd.counter + 1) % wordMax⟩,
                 nr_allocs := (a.nr_allocs + 1) % wordMax })
              (rest.length + 1)).1 := by
        simp [allocCalls, frame_alloc, frame_alloc_pop_free, hf]
      rw [List.length_cons, hstep, ih _ hch']
      simp [List.replicate]

/-- Clearing the low six bits of a 64-bit word rounds it down to a multiple
of the cache-line size: `x & ~63 = x / 64 * 64` for `x < 2^64`. -/
theorem land_cacheline_mask (x : Nat) (hx : x < 2 ^ 64) :
    x &&& (2 ^ 64 - 64) = x / 64 * 64 := by
  have hm : (2 : Nat) ^ 64 - 64 = (2 ^ 58 - 1) <<< 6 := by
    rw [Nat.shiftLeft_eq]; norm_num
  have hr : x / 64 * 64 = (x >>> 6) <<< 6 := by
    rw [Nat.shiftLeft_eq, Nat.shiftRight_eq_div_pow]
  rw [hm, hr]
  apply Nat.eq_of_testBit_eq
  intro i
  rw [Nat.testBit_and, Nat.testBit_shiftLeft, Nat.testBit_shiftLeft,
    Nat.testBit_shiftRight, Nat.testBit_two_pow_sub_one]
  by_cases h6 : 6 ≤ i
  · by_cases h64 : i < 64
    · have hi : 6 + (i - 6) = i := by omega
      simp [h6, hi, show i - 6 < 58 by omega, ge_iff_le]
    · have hb : x.testBit i = false :=
        Nat.testBit_lt_two_pow
          (lt_of_lt_of_le hx (Nat.pow_le_pow_right (by omega) (by omega)))
      have hb2 : x.testBit (6 + (i - 6)) = false := by
        rw [show 6 + (i - 6) = i by omega]; exact hb
      simp [hb, hb2]
  · simp [ge_iff_le, h6]

theorem computed_frame_size_pos (b : Nat) : 0 < computed_frame_size b := by
  unfold computed_frame_size sizeof_frame_alloc_free
  split <;> omega

/-- With `0 < b ≤ 2^64 - 64` the `size_t` round-up does not wrap, so the
stored frame size is the mathematical round-up of `b` to a multiple of 64
(which is already at least `sizeof(struct frame_alloc_free)`). -/
theorem computed_frame_size_eq (b : Nat) (hb : 0 < b)
    (hb2 : b ≤ wordMax - SYS_CACHE_LINE_LENGTH) :
    computed_frame_size b = (b + 63) / 64 * 64 := by
  have hlt : b + 63 < 2 ^ 64 := by
    unfold wordMax SYS_CACHE_LINE_LENGTH at hb2; omega
  have hround : round_frame_bytes b = (b + 63) / 64 * 64 := by
    unfold round_frame_bytes SYS_CACHE_LINE_LENGTH wordMax
    rw [Nat.mod_eq_of_lt hlt]
    exact land_cacheline_mask (b + 63) hlt
  have hge : ¬((b + 63) / 64 * 64 < sizeof_frame_alloc_free) := by
    unfold sizeof_frame_alloc_free; omega
  unfold computed_frame_size
  rw [hround, if_neg hge]

/-- On the success path (valid arguments, descriptor obtained, `mmap`
succeeded at `rgn`), `frame_alloc_new` returns the initialized allocator
built over a region of `(nr_frames * frame_size) mod 2^64` bytes. -/
theorem frame_alloc_new_success (b n rgn : Nat) (hb : b ≠ 0) (hn : n ≠ 0) :
    frame_alloc_new b n true (some rgn) =
      ⟨A_OK,
       some (frame_alloc_init
        { hd := ⟨none, 0⟩
          rgn := rgn
          rgn_len := (n * computed_frame_size b) % wordMax
          frame_size := computed_frame_size b
          nr_frames := n
          frames_outstanding := 0
          nr_frees := 0
          nr_allocs := 0
          mem := [] }),
       true, false, false, some ((n * computed_frame_size b) % wordMax)⟩ := by
  simp [frame_alloc_new, hb, hn]

/-! ## Concrete allocator states used to instantiate the theorems -/

/-- The one-frame allocator a successful `frame_alloc_new(1, 1)` builds
over a region mapped at address 4096. -/
def oneFrameAlloc : Alloc :=
  ⟨⟨some 4096, 0⟩, 4096, 64, 64, 1, 0, 0, 0, [(4096, none)]⟩

/-- `oneFrameAlloc` after its frame has been popped once. -/
def oneFramePopped : Alloc :=
  ⟨⟨none, 1⟩, 4096, 64, 64, 1, 0, 0, 1, [(4096, none)]⟩

/-- `oneFrameAlloc` with the generation counter saturated at `2^64 - 1`,
about to wrap. -/
def wrapCounterAlloc : Alloc :=
  ⟨⟨some 4096, wordMax - 1⟩, 4096, 64, 64, 1, 0, 0, 0, [(4096, none)]⟩

/-- An allocator whose free list is empty (its one frame is outstanding). -/
def emptyFreeAlloc : Alloc :=
  ⟨⟨none, 1⟩, 4096, 64, 64, 1, 0, 0, 1, [(4096, none)]⟩

/-! ## Claims -/

/-- C1: the claim says that when the backing `mmap` fails,
`frame_alloc_new` returns an out-of-memory error and releases the
already-acquired descriptor.  The code does neither: the mmap-failure
branch does `goto done` without assigning `ret`, so `ret` still holds
`A_OK`, the `if (FAILED(ret))` cleanup is skipped (the descriptor leaks),
and `A_OK` is returned with `*palloc == NULL`.  This theorem evaluates the
embedded code on that path. -/
theorem c1_mmap_fail_returns_ok (b n : Nat) (hb : 0 < b) (hn : 0 < n) :
    frame_alloc_new b n true none =
      ⟨A_OK, none, true, false, false,
        some ((n * computed_frame_size b) % wordMax)⟩ := by
  have h1 : ¬(b = 0 ∨ n = 0) := by omega
  simp [frame_alloc_new, h1]

theorem c1_mmap_fail_returns_ok_witness :
    0 < (1 : Nat) ∧
    frame_alloc_new 1 1 true none =
      ⟨A_OK, none, true, false, false, some 64⟩ :=
  ⟨Nat.one_pos, c1_mmap_fail_returns_ok 1 1 Nat.one_pos Nat.one_pos⟩

/-- C3: when the head's free pointer is the empty marker, `frame_alloc`
fails with `A_E_NOMEM`, performs no growth and no waiting, leaves the
allocator state completely unchanged, and leaves `*pframe` NULL. -/
theorem c3_empty_free_list_nomem (a : Alloc) (h : a.hd.free = none) :
    frame_alloc a = ⟨A_E_NOMEM, a, none⟩ := by
  simp [frame_alloc, frame_alloc_pop_free, h]

theorem c3_empty_free_list_nomem_witness :
    emptyFreeAlloc.hd.free = none ∧
    frame_alloc emptyFreeAlloc = ⟨A_E_NOMEM, emptyFreeAlloc, none⟩ :=
  ⟨rfl, c3_empty_free_list_nomem emptyFreeAlloc rfl⟩

/-- C5: a frame `p` returned by a successful `frame_alloc`, given back via
`frame_free` and immediately requested again by `frame_alloc` on the same
allocator (single thread), is returned again: push-then-pop of the LIFO
free list round-trips and no frame is lost. -/
theorem c5_free_then_alloc_roundtrip (a a1 : Alloc) (p : Nat)
    (h : frame_alloc a = ⟨A_OK, a1, some p⟩) :
    ∃ a2, frame_free a1 (some p) = ⟨A_OK, a2, none⟩ ∧
      (frame_alloc a2).ret = A_OK ∧ (frame_alloc a2).pframe = some p :=
  ⟨_, rfl, rfl, rfl⟩

theorem c5_free_then_alloc_roundtrip_witness :
    frame_alloc oneFrameAlloc = ⟨A_OK, oneFramePopped, some 4096⟩ ∧
    (∃ a2, frame_free oneFramePopped (some 4096) = ⟨A_OK, a2, none⟩ ∧
      (frame_alloc a2).ret = A_OK ∧ (frame_alloc a2).pframe = some 4096) :=
  ⟨by decide,
   c5_free_then_alloc_roundtrip oneFrameAlloc oneFramePopped 4096 (by decide)⟩

/-- C6: every successful pop and every successful push installs a
generation counter exactly one larger (modulo `2^64`, the `counter_t`
width) than the counter in the head value the CAS replaced, and the push
still returns `A_OK` when the counter wraps. -/
theorem c6_generation_counter_increment :
    (∀ (a : Alloc) (tin : Option Nat),
        (frame_alloc_pop_free a tin).ret = A_OK →
        (frame_alloc_pop_free a tin).st.hd.counter
          = (a.hd.counter + 1) % wordMax) ∧
    (∀ (a : Alloc) (p : Nat),
        (frame_alloc_push_free a p).1 = A_OK ∧
        (frame_alloc_push_free a p).2.hd.counter
          = (a.hd.counter + 1) % wordMax) := by
  refine ⟨?_, fun a p => ⟨rfl, rfl⟩⟩
  intro a tin h
  cases hf : a.hd.free with
  | none => simp [frame_alloc_pop_free, hf] at h
  | some p => simp [frame_alloc_pop_free, hf]

theorem c6_generation_counter_increment_witness :
    (frame_alloc_pop_free wrapCounterAlloc none).st.hd.counter
      = (wrapCounterAlloc.hd.counter + 1) % wordMax ∧
    (frame_alloc_push_free oneFrameAlloc 4096).1 = A_OK ∧
    (frame_alloc_push_free oneFrameAlloc 4096).2.hd.counter
      = (oneFrameAlloc.hd.counter + 1) % wordMax :=
  ⟨c6_generation_counter_increment.1 wrapCounterAlloc none (by decide),
   c6_generation_counter_increment.2 oneFrameAlloc 4096⟩

/-- C8: `frame_free` on any allocator and any non-NULL frame pointer
returns `A_OK`, whatever the allocator's state; its only non-success
outcome is the `TSL_ASSERT_ARG` precondition violation on a NULL frame
pointer. -/
theorem c8_frame_free_always_succeeds :
    (∀ (a : Alloc) (p : Nat), (frame_free a (some p)).ret = A_OK) ∧
    (∀ (a : Alloc), (frame_free a none).ret = A_E_BADARGS) :=
  ⟨fun _ _ => rfl, fun _ => rfl⟩

/-- C9: after every successful `frame_free`, the caller's `*pframe` cell
has been set to NULL. -/
theorem c9_frame_free_clears_pframe (a : Alloc) (pin : Option Nat)
    (h : (frame_free a pin).ret = A_OK) :
    (frame_free a pin).pframe = none := by
  cases pin with
  | none => simp [frame_free] at h
  | some p => rfl

theorem c9_frame_free_clears_pframe_witness :
    (frame_free oneFrameAlloc (some 4096)).ret = A_OK ∧
    (frame_free oneFrameAlloc (some 4096)).pframe = none :=
  ⟨rfl, c9_frame_free_clears_pframe oneFrameAlloc (some 4096) rfl⟩

/-- C4 (amended): for every requested `frame_bytes` with
`0 < frame_bytes ≤ 2^64 - 64` — so the `size_t` round-up
`(frame_bytes + 63) & ~63` cannot wrap — the per-frame size stored at
construction and returned by `frame_alloc_get_frame_size` equals the larger
of `frame_bytes` rounded up to the cache-line size and
`sizeof(struct frame_alloc_free)`; consequently it is a multiple of the
cache-line size and at least `frame_bytes`. -/
theorem c4_frame_size_rounding (b n rgn : Nat) (hb : 0 < b)
    (hb2 : b ≤ wordMax - SYS_CACHE_LINE_LENGTH) (hn : 0 < n) (fa : Alloc)
    (hfa : (frame_alloc_new b n true (some rgn)).palloc = some fa) :
    (frame_alloc_get_frame_size fa).2
        = max ((b + (SYS_CACHE_LINE_LENGTH - 1)) / SYS_CACHE_LINE_LENGTH
                * SYS_CACHE_LINE_LENGTH) sizeof_frame_alloc_free ∧
    SYS_CACHE_LINE_LENGTH ∣ (frame_alloc_get_frame_size fa).2 ∧
    b ≤ (frame_alloc_get_frame_size fa).2 := by
  rw [frame_alloc_new_success b n rgn hb.ne' hn.ne'] at hfa
  have hfa' := Option.some.inj hfa
  subst hfa'
  have hcfs := computed_frame_size_eq b hb hb2
  refine ⟨?_, ?_, ?_⟩
  · show computed_frame_size b = _
    unfold SYS_CACHE_LINE_LENGTH sizeof_frame_alloc_free
    rw [hcfs]
    exact (Nat.max_eq_left (by omega)).symm
  · show SYS_CACHE_LINE_LENGTH ∣ computed_frame_size b
    unfold SYS_CACHE_LINE_LENGTH
    rw [hcfs]
    exact dvd_mul_left 64 _
  · show b ≤ computed_frame_size b
    rw [hcfs]; omega

theorem c4_frame_size_rounding_witness :
    0 < (100 : Nat) ∧ (100 : Nat) ≤ wordMax - SYS_CACHE_LINE_LENGTH ∧
    0 < (1 : Nat) ∧
    (frame_alloc_new 100 1 true (some 4096)).palloc
      = some ⟨⟨some 4096, 0⟩, 4096, 128, 128, 1, 0, 0, 0, [(4096, none)]⟩ ∧
    ((frame_alloc_get_frame_size
        (⟨⟨some 4096, 0⟩, 4096, 128, 128, 1, 0, 0, 0, [(4096, none)]⟩ : Alloc)).2
        = max ((100 + (SYS_CACHE_LINE_LENGTH - 1)) / SYS_CACHE_LINE_LENGTH
                * SYS_CACHE_LINE_LENGTH) sizeof_frame_alloc_free ∧
      SYS_CACHE_LINE_LENGTH ∣ (frame_alloc_get_frame_size
        (⟨⟨some 4096, 0⟩, 4096, 128, 128, 1, 0, 0, 0, [(4096, none)]⟩ : Alloc)).2 ∧
      100 ≤ (frame_alloc_get_frame_size
        (⟨⟨some 4096, 0⟩, 4096, 128, 128, 1, 0, 0, 0, [(4096, none)]⟩ : Alloc)).2) :=
  ⟨by decide, by decide, by decide, by decide,
   c4_frame_size_rounding 100 1 4096 (by decide) (by decide) (by decide)
     ⟨⟨some 4096, 0⟩, 4096, 128, 128, 1, 0, 0, 0, [(4096, none)]⟩ (by decide)⟩

/-- C4 counterexample: the claim as stated quantifies over every
`frame_bytes > 0`, but at `frame_bytes = 2^64 - 1` the `size_t` round-up
wraps to 0, the minimum-node-size branch raises it to 64, and the stored
per-frame size 64 is far smaller than the requested `frame_bytes`. -/
theorem c4_frame_size_rounding_cex :
    (frame_alloc_new (wordMax - 1) 1 true (some 4096)).ret = A_OK ∧
    ((frame_alloc_new (wordMax - 1) 1 true (some 4096)).palloc.map
        (fun fa => (frame_alloc_get_frame_size fa).2)) = some 64 ∧
    ¬(wordMax - 1 ≤ 64) := by
  decide

/-- The two-frame allocator a successful `frame_alloc_new(1, 2)` builds
over a region mapped at address 4096. -/
def capTwoAlloc : Alloc :=
  ⟨⟨some 4160, 0⟩, 4096, 128, 64, 2, 0, 0, 0, [(4160, some 4096), (4096, none)]⟩

/-- The allocator `frame_alloc_new(1, 2^58 + 1)` builds at address 4096:
the `size_t` product `(2^58 + 1) * 64` wraps to 64, so the region holds a
single frame. -/
def overflowAlloc : Alloc :=
  ⟨⟨some 4096, 0⟩, 4096, 64, 64, 2 ^ 58 + 1, 0, 0, 0, [(4096, none)]⟩

/-- Same overflowing construction mapped at address 8192. -/
def overflowAllocB : Alloc :=
  ⟨⟨some 8192, 0⟩, 8192, 64, 64, 2 ^ 58 + 1, 0, 0, 0, [(8192, none)]⟩

/-- C2 (amended): for every `b > 0` and `n > 0` whose `size_t` product
`n * frame_size` does not overflow (`n * computed_frame_size b < 2^64`),
after a successful `frame_alloc_new(b, n)` a single-threaded sequence of
`frame_alloc` calls with no interleaved free has exactly its first `n`
calls succeed and its `(n+1)`th fail with `A_E_NOMEM`. -/
theorem c2_capacity (b n rgn : Nat) (hb : 0 < b) (hn : 0 < n)
    (hov : n * computed_frame_size b < wordMax) (fa : Alloc)
    (hfa : (frame_alloc_new b n true (some rgn)).palloc = some fa) :
    (allocCalls fa (n + 1)).1 = List.replicate n A_OK ++ [A_E_NOMEM] := by
  rw [frame_alloc_new_success b n rgn hb.ne' hn.ne'] at hfa
  have hfa' := Option.some.inj hfa
  subst hfa'
  have hfs : 0 < computed_frame_size b := computed_frame_size_pos b
  have hmod : (n * computed_frame_size b) % wordMax
      = n * computed_frame_size b := Nat.mod_eq_of_lt hov
  have hinit : frame_alloc_init
      { hd := ⟨none, 0⟩
        rgn := rgn
        rgn_len := (n * computed_frame_size b) % wordMax
        frame_size := computed_frame_size b
        nr_frames := n
        frames_outstanding := 0
        nr_frees := 0
        nr_allocs := 0
        mem := [] } =
      { hd := ⟨(init_go (computed_frame_size b) n rgn none []).1, 0⟩
        rgn := rgn
        rgn_len := (n * computed_frame_size b) % wordMax
        frame_size := computed_frame_size b
        nr_frames := n
        frames_outstanding := 0
        nr_frees := 0
        nr_allocs := 0
        mem := (init_go (computed_frame_size b) n rgn none []).2 } := by
    simp only [frame_alloc_init, init_loop]
    rw [hmod, init_iters_exact (computed_frame_size b) n rgn hfs]
  rw [hinit]
  have hchain : chain (init_go (computed_frame_size b) n rgn none []).2
      (init_go (computed_frame_size b) n rgn none []).1
      (frameList (computed_frame_size b) n rgn) = true := by
    have h0 := init_go_chain (computed_frame_size b) hfs n rgn none [] []
      rfl (by simp)
    simpa using h0
  have hkey := allocCalls_chain (frameList (computed_frame_size b) n rgn)
      { hd := ⟨(init_go (computed_frame_size b) n rgn none []).1, 0⟩
        rgn := rgn
        rgn_len := (n * computed_frame_size b) % wordMax
        frame_size := computed_frame_size b
        nr_frames := n
        frames_outstanding := 0
        nr_frees := 0
        nr_allocs := 0
        mem := (init_go (computed_frame_size b) n rgn none []).2 } hchain
  rw [frameList_length (computed_frame_size b) n rgn] at hkey
  exact hkey

theorem c2_capacity_witness :
    0 < (1 : Nat) ∧ 0 < (2 : Nat) ∧
    2 * computed_frame_size 1 < wordMax ∧
    (frame_alloc_new 1 2 true (some 4096)).palloc = some capTwoAlloc ∧
    (allocCalls capTwoAlloc (2 + 1)).1
      = List.replicate 2 A_OK ++ [A_E_NOMEM] :=
  ⟨Nat.one_pos, by decide, by decide, by decide,
   c2_capacity 1 2 4096 Nat.one_pos (by decide) (by decide) capTwoAlloc
     (by decide)⟩

/-- C2 counterexample: the claim as stated quantifies over every
`b > 0`, `n > 0`, but at `b = 1`, `n = 2^58 + 1` the `size_t` region-size
product wraps to 64, construction succeeds over a region holding a single
frame, and already the second `frame_alloc` call fails with `A_E_NOMEM`
although `2 ≤ n`. -/
theorem c2_capacity_cex :
    (frame_alloc_new 1 (2 ^ 58 + 1) true (some 4096)).ret = A_OK ∧
    (frame_alloc_new 1 (2 ^ 58 + 1) true (some 4096)).palloc
      = some overflowAlloc ∧
    2 ≤ 2 ^ 58 + 1 ∧
    (allocCalls overflowAlloc 2).1 = [A_OK, A_E_NOMEM] := by
  decide

/-- C10: the backing-region length is computed as
`nr_frames * frame_bytes_rounded` in 64-bit `size_t` arithmetic with no
overflow check: whenever the true product is at least `2^64`, the stored
region length and the length requested from `mmap` equal the product
reduced modulo `2^64`, which is not the true product. -/
theorem c10_rgn_size_overflow (b n rgn : Nat) (hb : 0 < b) (hn : 0 < n)
    (hov : wordMax ≤ n * computed_frame_size b) (fa : Alloc)
    (hfa : (frame_alloc_new b n true (some rgn)).palloc = some fa) :
    fa.rgn_len = (n * computed_frame_size b) % wordMax ∧
    (frame_alloc_new b n true (some rgn)).mmap_len
      = some ((n * computed_frame_size b) % wordMax) ∧
    fa.rgn_len ≠ n * computed_frame_size b := by
  rw [frame_alloc_new_success b n rgn hb.ne' hn.ne'] at hfa ⊢
  have hfa' := Option.some.inj hfa
  subst hfa'
  refine ⟨rfl, rfl, ?_⟩
  show (n * computed_frame_size b) % wordMax ≠ n * computed_frame_size b
  have hlt : (n * computed_frame_size b) % wordMax < wordMax :=
    Nat.mod_lt _ (by norm_num [wordMax])
  omega

theorem c10_rgn_size_overflow_witness :
    0 < (1 : Nat) ∧ 0 < 2 ^ 58 + 1 ∧
    wordMax ≤ (2 ^ 58 + 1) * computed_frame_size 1 ∧
    (frame_alloc_new 1 (2 ^ 58 + 1) true (some 8192)).palloc
      = some overflowAllocB ∧
    (overflowAllocB.rgn_len
        = ((2 ^ 58 + 1) * computed_frame_size 1) % wordMax ∧
      (frame_alloc_new 1 (2 ^ 58 + 1) true (some 8192)).mmap_len
        = some (((2 ^ 58 + 1) * computed_frame_size 1) % wordMax) ∧
      overflowAllocB.rgn_len ≠ (2 ^ 58 + 1) * computed_frame_size 1) :=
  ⟨Nat.one_pos, by decide, by decide, by decide,
   c10_rgn_size_overflow 1 (2 ^ 58 + 1) 8192 Nat.one_pos (by decide)
     (by decide) overflowAllocB (by decide)⟩

end FrameAllocC
